import Mathlib

/-
Verification of the heuristic file locator `search_for_file`
(automation_agent.py, lines 253-329) against its specification.

The filesystem is modelled as a snapshot: a list of entries (files and
directories), each with an absolute path given as a list of components
(the root marker is dropped, so `/tmp` is `["tmp"]` and
`~/Downloads/a.pdf` with home `["home", "u"]` is
`["home", "u", "Downloads", "a.pdf"]`), a regular-file flag, and a
modification time where `none` models a failing `stat` call
(PermissionError/OSError).  Directories whose listing raises
PermissionError/OSError are recorded in a `denied` list.  Directory
enumeration order (`iterdir`, `rglob`) is modelled by the order of the
`entries` list.
-/

/-- A filesystem entry: absolute path as a list of components, whether it is a
regular file, and its modification time (`none` models a failing `stat`). -/
structure FSEntry where
  path : List String
  isFile : Bool
  mtime : Option Nat
deriving DecidableEq

/-- A filesystem snapshot: all entries (files and directories), plus the
directories whose listing raises PermissionError/OSError. -/
structure FS where
  entries : List FSEntry
  denied : List (List String)
deriving DecidableEq

/-- `location.exists()`: the path is present in the snapshot. -/
def FS.existsPath (fs : FS) (p : List String) : Bool :=
  fs.entries.any (fun e => e.path == p)

/-- Look up the entry at a path (used for the `exact_match` check). -/
def FS.findEntry (fs : FS) (p : List String) : Option FSEntry :=
  fs.entries.find? (fun e => e.path == p)

/-- Whether listing this directory raises PermissionError/OSError. -/
def FS.isDenied (fs : FS) (p : List String) : Bool :=
  fs.denied.any (fun d => d == p)

/-- `file_path.name`: the last path component. -/
def FSEntry.name (e : FSEntry) : String :=
  e.path.getLastD ""

/-- Whether the second list of components is an initial segment of the first
argument... (first argument is the candidate initial segment). -/
def pathStarts : List String → List String → Bool
  | [], _ => true
  | _ :: _, [] => false
  | a :: as, b :: bs => a == b && pathStarts as bs

/-- Whether the second character list occurs at the start of the first. -/
def startsWithChars : List Char → List Char → Bool
  | _, [] => true
  | [], _ :: _ => false
  | c :: cs, n :: ns => c == n && startsWithChars cs ns

/-- Whether the second character list occurs somewhere inside the first
(Python's `needle in hay` on strings). -/
def containsChars : List Char → List Char → Bool
  | [], needle => startsWithChars [] needle
  | c :: cs, needle => startsWithChars (c :: cs) needle || containsChars cs needle

/-- The case-insensitive substring test
`filename.lower() in file_path.name.lower()` (lines 303 and 312), with
`lower` applied character by character. -/
def lowerContains (name filename : String) : Bool :=
  containsChars (name.toList.map Char.toLower) (filename.toList.map Char.toLower)

/-- The host platform, as reported by `platform.system()`. -/
inductive OSKind
  | windows
  | darwin
  | linux
deriving DecidableEq

/-- `search_locations` as built at lines 255-286: a platform-dependent ordered
list of candidate directories, with the `None` slot removed by the final list
comprehension (line 286).  `home` is `Path.home()` as components and
`username` is the `USERNAME` environment variable (used on Windows only).
The Windows `D:/Downloads` slot is present only when `D:/` exists. -/
def searchLocations (fs : FS) (os : OSKind) (home : List String) (username : String) :
    List (List String) :=
  match os with
  | .windows =>
      ([some (home ++ ["Downloads"]),
        some (home ++ ["Downloads", "Telegram Desktop"]),
        some (home ++ ["Documents"]),
        some (home ++ ["Desktop"]),
        some (["C:", "Users", username, "Downloads"]),
        some (["C:", "Users", username, "Documents"]),
        some (["C:", "Users", username, "Desktop"]),
        if fs.existsPath ["D:"] then some ["D:", "Downloads"] else none] :
        List (Option (List String))).filterMap id
  | .darwin =>
      [home ++ ["Downloads"], home ++ ["Documents"], home ++ ["Desktop"],
        ["Applications"]]
  | .linux =>
      [home ++ ["Downloads"], home ++ ["Documents"], home ++ ["Desktop"],
        ["tmp"]]

/-- The three user-specific (priority) directories of the Linux catalog. -/
def linuxPriorityLocations (home : List String) : List (List String) :=
  [home ++ ["Downloads"], home ++ ["Documents"], home ++ ["Desktop"]]

/-- Files yielded by `location.iterdir()`: the direct children of `loc`, in
snapshot order. -/
def FS.iterdir (fs : FS) (loc : List String) : List FSEntry :=
  fs.entries.filter (fun e => pathStarts loc e.path && e.path.length == loc.length + 1)

/-- Entries yielded by `location.rglob("*")`: all proper descendants of `loc`,
in snapshot order. -/
def FS.rglob (fs : FS) (loc : List String) : List FSEntry :=
  fs.entries.filter (fun e => pathStarts loc e.path && loc.length < e.path.length)

/-- Lines 296-298: the exact-filename check `location / filename`, accepted
when it exists and is a regular file. -/
def exactMatches (fs : FS) (filename : String) (loc : List String) : List FSEntry :=
  match fs.findEntry (loc ++ [filename]) with
  | some e => if e.isFile then [e] else []
  | none => []

/-- Lines 301-306: the shallow scan over `location.iterdir()`, accepting
regular files whose name contains the search term case-insensitively. -/
def shallowMatches (fs : FS) (filename : String) (loc : List String) : List FSEntry :=
  (fs.iterdir loc).filter (fun e => e.isFile && lowerContains e.name filename)

/-- Lines 308-316: the recursive scan over `location.rglob("*")`, accepting
regular files whose name contains the term and that lie at most 3 path
components below the location
(`len(file_path.parts) - len(location.parts) <= 3`). -/
def deepMatches (fs : FS) (filename : String) (loc : List String) : List FSEntry :=
  (fs.rglob loc).filter
    (fun e => e.isFile && lowerContains e.name filename &&
      decide (e.path.length - loc.length ≤ 3))

/-- One iteration of the `for location in search_locations` loop
(lines 290-319).  A missing directory contributes nothing (line 292).  When
`iterdir` raises on a denied directory, the `continue` at line 306 skips the
`rglob` step too, so only the exact match (already appended) survives. -/
def scanLocation (fs : FS) (filename : String) (loc : List String) : List FSEntry :=
  if fs.existsPath loc then
    if fs.isDenied loc then
      exactMatches fs filename loc
    else
      exactMatches fs filename loc ++ shallowMatches fs filename loc ++
        deepMatches fs filename loc
  else []

/-- `found_files` after the whole location loop (lines 288-319): the
concatenation of every directory's contribution, in catalog order. -/
def foundFiles (fs : FS) (locs : List (List String)) (filename : String) : List FSEntry :=
  locs.flatMap (scanLocation fs filename)

/-- The last entry with path `p` among `l`, defaulting to `d` (the value a
Python dict holds after all insertions under one key). -/
def lastWith (p : List String) (l : List FSEntry) (d : FSEntry) : FSEntry :=
  (l.filter (fun x => x.path == p)).getLastD d

/-- Worker for `dictDedup`: `seen` holds the paths already emitted.  An entry
whose path was already seen is skipped; a first occurrence is emitted with
the last value its path receives in the remainder of the list. -/
def dictDedupGo : List (List String) → List FSEntry → List FSEntry
  | _, [] => []
  | seen, e :: rest =>
      if seen.any (fun q => q == e.path) then dictDedupGo seen rest
      else lastWith e.path rest e :: dictDedupGo (e.path :: seen) rest

/-- Line 322: `list({str(f): f for f in found_files}.values())`.  The dict
comprehension keeps one entry per path: the key's position is its first
occurrence, the value is the last entry seen with that path. -/
def dictDedup (l : List FSEntry) : List FSEntry :=
  dictDedupGo [] l

/-- The sort key `x.stat().st_mtime` (line 325).  The default `0` is never
reached on the sorted branch, which is taken only when every entry has a
valid modification time. -/
def mtimeKey (e : FSEntry) : Nat :=
  e.mtime.getD 0

/-- The descending-by-modification-time order of
`sort(key=lambda x: x.stat().st_mtime, reverse=True)`. -/
def mtimeGE (a b : FSEntry) : Prop :=
  mtimeKey b ≤ mtimeKey a

instance : DecidableRel mtimeGE :=
  fun a b => Nat.decLe (mtimeKey b) (mtimeKey a)

instance : IsTotal FSEntry mtimeGE :=
  ⟨fun a b => (Nat.le_total (mtimeKey b) (mtimeKey a)).imp id id⟩

instance : IsTrans FSEntry mtimeGE :=
  ⟨fun _ _ _ h1 h2 => Nat.le_trans h2 h1⟩

/-- Lines 321-329: deduplicate, then sort newest-first inside try/except —
in CPython a key function that raises leaves the list unmodified, so a single
failing `stat` skips the whole sort — then truncate with `unique_files[:15]`.
CPython's sort is stable, and a stable sort by a total key is unique, so the
stable `insertionSort` by `mtimeGE` produces the same list. -/
def rankAndTruncate (found : List FSEntry) : List FSEntry :=
  (if (dictDedup found).all (fun e => e.mtime.isSome) then
    List.insertionSort mtimeGE (dictDedup found)
  else dictDedup found).take 15

/-- The whole search pipeline over an explicit catalog of directories:
scan every catalog directory in order, then deduplicate, rank and truncate. -/
def searchCatalog (fs : FS) (locs : List (List String)) (filename : String) : List FSEntry :=
  rankAndTruncate (foundFiles fs locs filename)

/-- `search_for_file(self, filename)` (lines 253-329), with the ambient
platform, home directory, username and filesystem passed explicitly. -/
def search_for_file (fs : FS) (os : OSKind) (home : List String) (username : String)
    (filename : String) : List FSEntry :=
  searchCatalog fs (searchLocations fs os home username) filename

/-- Modelled from the spec: the Linux catalog as section 4.1 describes it —
Downloads, Documents, Desktop, home, `/home`, `/usr`, `/opt`, `/var`, `/tmp`,
with deep mode prepending the filesystem root (modelled as the empty
component list).  Used only to compare the spec's claimed catalog with the
one the code builds. -/
def specLinuxCatalog (home : List String) (deep : Bool) : List (List String) :=
  let base := [home ++ ["Downloads"], home ++ ["Documents"], home ++ ["Desktop"],
    home, ["home"], ["usr"], ["opt"], ["var"], ["tmp"]]
  if deep then [] :: base else base

/-! ### Concrete filesystem fixtures used by counterexamples and witnesses -/

/-- An empty filesystem snapshot. -/
def fsEmpty : FS :=
  ⟨[], []⟩

/-- A minimal snapshot: the Downloads folder of home `["h"]` holding the
single regular file `b.pdf`. -/
def fsW : FS :=
  ⟨[⟨["h", "Downloads"], false, some 0⟩,
    ⟨["h", "Downloads", "b.pdf"], true, some 5⟩], []⟩

/-- Snapshot where `a.pdf` exists exactly under Downloads (modification time
0) while 15 strictly newer files also contain `a.pdf` in their names. -/
def fsC1 : FS :=
  ⟨[⟨["h", "Downloads"], false, some 0⟩,
    ⟨["h", "Downloads", "a.pdf"], true, some 0⟩,
    ⟨["h", "Downloads", "01a.pdf"], true, some 1⟩,
    ⟨["h", "Downloads", "02a.pdf"], true, some 2⟩,
    ⟨["h", "Downloads", "03a.pdf"], true, some 3⟩,
    ⟨["h", "Downloads", "04a.pdf"], true, some 4⟩,
    ⟨["h", "Downloads", "05a.pdf"], true, some 5⟩,
    ⟨["h", "Downloads", "06a.pdf"], true, some 6⟩,
    ⟨["h", "Downloads", "07a.pdf"], true, some 7⟩,
    ⟨["h", "Downloads", "08a.pdf"], true, some 8⟩,
    ⟨["h", "Downloads", "09a.pdf"], true, some 9⟩,
    ⟨["h", "Downloads", "10a.pdf"], true, some 10⟩,
    ⟨["h", "Downloads", "11a.pdf"], true, some 11⟩,
    ⟨["h", "Downloads", "12a.pdf"], true, some 12⟩,
    ⟨["h", "Downloads", "13a.pdf"], true, some 13⟩,
    ⟨["h", "Downloads", "14a.pdf"], true, some 14⟩,
    ⟨["h", "Downloads", "15a.pdf"], true, some 15⟩], []⟩

/-- Snapshot whose first catalog directory (Downloads) holds 20 files matching
the term `"a"`, while a newer 21st match sits in the second directory
(Documents). -/
def fsC2 : FS :=
  ⟨[⟨["h", "Downloads"], false, some 0⟩,
    ⟨["h", "Documents"], false, some 0⟩,
    ⟨["h", "Downloads", "a01.pdf"], true, some 1⟩,
    ⟨["h", "Downloads", "a02.pdf"], true, some 2⟩,
    ⟨["h", "Downloads", "a03.pdf"], true, some 3⟩,
    ⟨["h", "Downloads", "a04.pdf"], true, some 4⟩,
    ⟨["h", "Downloads", "a05.pdf"], true, some 5⟩,
    ⟨["h", "Downloads", "a06.pdf"], true, some 6⟩,
    ⟨["h", "Downloads", "a07.pdf"], true, some 7⟩,
    ⟨["h", "Downloads", "a08.pdf"], true, some 8⟩,
    ⟨["h", "Downloads", "a09.pdf"], true, some 9⟩,
    ⟨["h", "Downloads", "a10.pdf"], true, some 10⟩,
    ⟨["h", "Downloads", "a11.pdf"], true, some 11⟩,
    ⟨["h", "Downloads", "a12.pdf"], true, some 12⟩,
    ⟨["h", "Downloads", "a13.pdf"], true, some 13⟩,
    ⟨["h", "Downloads", "a14.pdf"], true, some 14⟩,
    ⟨["h", "Downloads", "a15.pdf"], true, some 15⟩,
    ⟨["h", "Downloads", "a16.pdf"], true, some 16⟩,
    ⟨["h", "Downloads", "a17.pdf"], true, some 17⟩,
    ⟨["h", "Downloads", "a18.pdf"], true, some 18⟩,
    ⟨["h", "Downloads", "a19.pdf"], true, some 19⟩,
    ⟨["h", "Downloads", "a20.pdf"], true, some 20⟩,
    ⟨["h", "Documents", "a99.pdf"], true, some 100⟩], []⟩

/-- The newest match of `fsC2`, located in the second catalog directory. -/
def entA99 : FSEntry :=
  ⟨["h", "Documents", "a99.pdf"], true, some 100⟩

/-- Snapshot with three matches for `"r"` in Downloads: mtimes 1, 2 and a
failing stat, in that listing order. -/
def fsC4 : FS :=
  ⟨[⟨["h", "Downloads"], false, some 0⟩,
    ⟨["h", "Downloads", "r1.txt"], true, some 1⟩,
    ⟨["h", "Downloads", "r2.txt"], true, some 2⟩,
    ⟨["h", "Downloads", "r3.txt"], true, none⟩], []⟩

/-- Snapshot where directory `a` is denied (its nested match `a/y/x.pdf` is
unreachable) while directory `b` holds an accessible `x.pdf`. -/
def fsC7 : FS :=
  ⟨[⟨["a"], false, some 0⟩,
    ⟨["a", "y", "x.pdf"], true, some 9⟩,
    ⟨["b"], false, some 0⟩,
    ⟨["b", "x.pdf"], true, some 3⟩], [["a"]]⟩

/-- Snapshot with three matches for `"q"`: mtimes 10, 20 and a failing stat,
in that listing order. -/
def fsC8 : FS :=
  ⟨[⟨["g", "Downloads"], false, some 0⟩,
    ⟨["g", "Downloads", "q1.txt"], true, some 10⟩,
    ⟨["g", "Downloads", "q2.txt"], true, some 20⟩,
    ⟨["g", "Downloads", "q3.txt"], true, none⟩], []⟩

/-! ### Helper lemmas about the deduplication step -/

theorem getLastD_mem_cons {α : Type} (l : List α) (d : α) : l.getLastD d ∈ d :: l := by
  cases l with
  | nil => exact List.mem_singleton.mpr rfl
  | cons a as =>
      exact List.mem_cons_of_mem d (List.getLast_mem (by simp))

theorem lastWith_mem (p : List String) (l : List FSEntry) (d : FSEntry) :
    lastWith p l d ∈ d :: l := by
  unfold lastWith
  rcases List.mem_cons.mp (getLastD_mem_cons (l.filter (fun x => x.path == p)) d) with h | h
  · rw [h]; exact List.mem_cons_self d l
  · exact List.mem_cons_of_mem d (List.mem_of_mem_filter h)

theorem lastWith_path (p : List String) (l : List FSEntry) (d : FSEntry)
    (hd : d.path = p) : (lastWith p l d).path = p := by
  unfold lastWith
  rcases List.mem_cons.mp (getLastD_mem_cons (l.filter (fun x => x.path == p)) d) with h | h
  · rw [h, hd]
  · exact eq_of_beq ((List.mem_filter.mp h).2)

theorem mem_of_mem_dictDedupGo :
    ∀ (l : List FSEntry) (seen : List (List String)) (x : FSEntry),
      x ∈ dictDedupGo seen l → x ∈ l := by
  intro l
  induction l with
  | nil => intro seen x hx; simp [dictDedupGo] at hx
  | cons e rest ih =>
      intro seen x hx
      rw [dictDedupGo] at hx
      split at hx
      · exact List.mem_cons_of_mem e (ih seen x hx)
      · rcases List.mem_cons.mp hx with h | h
        · exact h ▸ lastWith_mem e.path rest e
        · exact List.mem_cons_of_mem e (ih (e.path :: seen) x h)

theorem mem_of_mem_dictDedup (l : List FSEntry) (x : FSEntry)
    (hx : x ∈ dictDedup l) : x ∈ l :=
  mem_of_mem_dictDedupGo l [] x hx

theorem path_mem_dictDedupGo_iff :
    ∀ (l : List FSEntry) (seen : List (List String)) (p : List String),
      p ∈ (dictDedupGo seen l).map FSEntry.path ↔
        p ∈ l.map FSEntry.path ∧ p ∉ seen := by
  intro l
  induction l with
  | nil => intro seen p; simp [dictDedupGo]
  | cons e rest ih =>
      intro seen p
      rw [dictDedupGo]
      split
      · rename_i hseen
        rw [ih seen p]
        simp only [List.map_cons, List.mem_cons]
        constructor
        · rintro ⟨h1, h2⟩; exact ⟨Or.inr h1, h2⟩
        · rintro ⟨h1, h2⟩
          rcases h1 with h1 | h1
          · exfalso
            rcases List.any_eq_true.mp hseen with ⟨q, hq, hbeq⟩
            exact h2 (h1 ▸ (eq_of_beq hbeq ▸ hq))
          · exact ⟨h1, h2⟩
      · rename_i hseen
        have hne : p ∈ seen → p ≠ e.path := by
          intro hp he
          exact hseen (List.any_eq_true.mpr ⟨p, hp, he ▸ beq_self_eq_true p⟩)
        simp only [List.map_cons, List.mem_cons,
          lastWith_path e.path rest e rfl, ih (e.path :: seen) p]
        constructor
        · rintro (h | ⟨h1, h2⟩)
          · exact ⟨Or.inl h, fun hp => hne hp h⟩
          · exact ⟨Or.inr h1, fun hp => h2 (Or.inr hp)⟩
        · rintro ⟨h1, h2⟩
          rcases h1 with h1 | h1
          · exact Or.inl h1
          · by_cases hpe : p = e.path
            · exact Or.inl hpe
            · exact Or.inr ⟨h1, fun hp => hp.elim hpe h2⟩

theorem path_mem_dictDedup_iff (l : List FSEntry) (p : List String) :
    p ∈ (dictDedup l).map FSEntry.path ↔ p ∈ l.map FSEntry.path := by
  rw [dictDedup, path_mem_dictDedupGo_iff]
  simp

theorem dictDedupGo_paths_nodup :
    ∀ (l : List FSEntry) (seen : List (List String)),
      ((dictDedupGo seen l).map FSEntry.path).Nodup := by
  intro l
  induction l with
  | nil => intro seen; simp [dictDedupGo]
  | cons e rest ih =>
      intro seen
      rw [dictDedupGo]
      split
      · exact ih seen
      · simp only [List.map_cons, List.nodup_cons,
          lastWith_path e.path rest e rfl]
        refine ⟨fun hmem => ?_, ih (e.path :: seen)⟩
        exact ((path_mem_dictDedupGo_iff rest (e.path :: seen) e.path).mp hmem).2
          (List.mem_cons_self e.path seen)

theorem dictDedup_paths_nodup (l : List FSEntry) :
    ((dictDedup l).map FSEntry.path).Nodup :=
  dictDedupGo_paths_nodup l []

/-! ### Helper lemmas about ranking and the per-directory scan -/

theorem rank_perm (uniq : List FSEntry) :
    List.Perm
      (if uniq.all (fun e => e.mtime.isSome) then List.insertionSort mtimeGE uniq
        else uniq)
      uniq := by
  split
  · exact List.perm_insertionSort mtimeGE uniq
  · exact List.Perm.refl uniq

theorem mem_exactMatches_isFile (fs : FS) (t : String) (loc : List String)
    (e : FSEntry) (h : e ∈ exactMatches fs t loc) : e.isFile = true := by
  unfold exactMatches at h
  split at h
  · rename_i e' hfind
    split at h
    · rename_i hfile
      rwa [List.mem_singleton.mp h]
    · exact absurd h (List.not_mem_nil e)
  · exact absurd h (List.not_mem_nil e)

theorem mem_shallowMatches_isFile (fs : FS) (t : String) (loc : List String)
    (e : FSEntry) (h : e ∈ shallowMatches fs t loc) : e.isFile = true := by
  unfold shallowMatches at h
  exact ((Bool.and_eq_true _ _).mp (List.mem_filter.mp h).2).1

theorem mem_deepMatches_isFile (fs : FS) (t : String) (loc : List String)
    (e : FSEntry) (h : e ∈ deepMatches fs t loc) : e.isFile = true := by
  unfold deepMatches at h
  have hb := (List.mem_filter.mp h).2
  exact ((Bool.and_eq_true _ _).mp ((Bool.and_eq_true _ _).mp hb).1).1

theorem mem_scanLocation_isFile (fs : FS) (t : String) (loc : List String)
    (e : FSEntry) (h : e ∈ scanLocation fs t loc) : e.isFile = true := by
  unfold scanLocation at h
  split at h
  · split at h
    · exact mem_exactMatches_isFile fs t loc e h
    · rcases List.mem_append.mp h with h1 | h1
      · rcases List.mem_append.mp h1 with h2 | h2
        · exact mem_exactMatches_isFile fs t loc e h2
        · exact mem_shallowMatches_isFile fs t loc e h2
      · exact mem_deepMatches_isFile fs t loc e h1
  · exact absurd h (List.not_mem_nil e)

theorem mem_foundFiles_isFile (fs : FS) (locs : List (List String)) (t : String)
    (e : FSEntry) (h : e ∈ foundFiles fs locs t) : e.isFile = true := by
  unfold foundFiles at h
  rcases List.mem_flatMap.mp h with ⟨loc, _, hscan⟩
  exact mem_scanLocation_isFile fs t loc e hscan

theorem mem_searchCatalog_found (fs : FS) (locs : List (List String)) (t : String)
    (e : FSEntry) (h : e ∈ searchCatalog fs locs t) : e ∈ foundFiles fs locs t := by
  unfold searchCatalog rankAndTruncate at h
  have h1 := List.take_subset 15 _ h
  have h2 := (rank_perm (dictDedup (foundFiles fs locs t))).mem_iff.mp h1
  exact mem_of_mem_dictDedup _ e h2

theorem path_mem_searchCatalog (fs : FS) (locs : List (List String)) (t : String)
    (e : FSEntry) (loc : List String) (hloc : loc ∈ locs)
    (hscan : e ∈ scanLocation fs t loc)
    (hsmall : (dictDedup (foundFiles fs locs t)).length ≤ 15) :
    e.path ∈ (searchCatalog fs locs t).map FSEntry.path := by
  have hfound : e ∈ foundFiles fs locs t := by
    unfold foundFiles
    exact List.mem_flatMap.mpr ⟨loc, hloc, hscan⟩
  have hpath : e.path ∈ (dictDedup (foundFiles fs locs t)).map FSEntry.path :=
    (path_mem_dictDedup_iff _ _).mpr (List.mem_map_of_mem _ hfound)
  have hperm := rank_perm (dictDedup (foundFiles fs locs t))
  have hlen :
      (if (dictDedup (foundFiles fs locs t)).all (fun e => e.mtime.isSome) then
        List.insertionSort mtimeGE (dictDedup (foundFiles fs locs t))
      else dictDedup (foundFiles fs locs t)).length ≤ 15 := by
    rw [hperm.length_eq]; exact hsmall
  unfold searchCatalog rankAndTruncate
  rw [List.take_of_length_le hlen]
  exact ((hperm.map FSEntry.path).mem_iff).mpr hpath

theorem mem_exactMatches_of_find (fs : FS) (t : String) (loc : List String)
    (e : FSEntry) (hfind : fs.findEntry (loc ++ [t]) = some e)
    (hfile : e.isFile = true) : e ∈ exactMatches fs t loc := by
  simp [exactMatches, hfind, hfile]

theorem mem_scanLocation_of_mem_exact (fs : FS) (t : String) (loc : List String)
    (hexists : fs.existsPath loc = true) (e : FSEntry)
    (he : e ∈ exactMatches fs t loc) : e ∈ scanLocation fs t loc := by
  unfold scanLocation
  rw [hexists]
  simp only [if_true]
  split
  · exact he
  · exact List.mem_append_left _ (List.mem_append_left _ he)

theorem scanLocation_eq_nil_of_denied (fs : FS) (t : String) (loc : List String)
    (hdenied : fs.isDenied loc = true)
    (hnone : fs.findEntry (loc ++ [t]) = none) :
    scanLocation fs t loc = [] := by
  have hex : exactMatches fs t loc = [] := by unfold exactMatches; rw [hnone]
  simp [scanLocation, hdenied, hex]

theorem singleton_ne_append_of_ne {a b : String} (l : List String) (h : a ≠ b) :
    [a] ≠ l ++ [b] := by
  intro he
  have h2 : ([a] : List String).getLastD "" = (l ++ [b]).getLastD "" := by rw [he]
  rw [List.getLastD_concat] at h2
  exact h h2

/-! ### The claims -/

/-- C1 counterexample: the term `a.pdf` exactly names an existing regular file
in the Downloads priority directory of `fsC1`, yet its path is absent from the
non-deep search result: 15 strictly newer files also match the term, the
newest-first sort places them ahead, and the truncation to 15 entries evicts
the exact match.  This refutes the claim as universally stated. -/
theorem c1_counterexample :
    fsC1.findEntry (["h", "Downloads"] ++ ["a.pdf"]) =
        some ⟨["h", "Downloads", "a.pdf"], true, some 0⟩ ∧
      (⟨["h", "Downloads", "a.pdf"], true, some 0⟩ : FSEntry).isFile = true ∧
      ["h", "Downloads", "a.pdf"] ∉
        (search_for_file fsC1 .linux ["h"] "" "a.pdf").map FSEntry.path := by
  decide

/-- C1 (amended): for every search term that exactly equals the name of an
existing regular file in a priority directory of the catalog, the non-deep
search result contains that file's absolute path, provided the number of
distinct matching paths does not exceed the 15-entry result cap (otherwise
the 15 most recently modified matches may evict it). -/
theorem c1_exact_match_within_cap (fs : FS) (home : List String) (u t : String)
    (loc : List String) (e : FSEntry)
    (hloc : loc ∈ linuxPriorityLocations home)
    (hfind : fs.findEntry (loc ++ [t]) = some e)
    (hfile : e.isFile = true)
    (hexists : fs.existsPath loc = true)
    (hsmall : (dictDedup (foundFiles fs (searchLocations fs .linux home u) t)).length ≤ 15) :
    e.path ∈ (search_for_file fs .linux home u t).map FSEntry.path := by
  have hcat : loc ∈ searchLocations fs .linux home u := by
    simp only [linuxPriorityLocations, List.mem_cons, List.not_mem_nil,
      or_false] at hloc
    simp only [searchLocations, List.mem_cons, List.not_mem_nil, or_false]
    rcases hloc with h | h | h
    · exact Or.inl h
    · exact Or.inr (Or.inl h)
    · exact Or.inr (Or.inr (Or.inl h))
  have hscan : e ∈ scanLocation fs t loc :=
    mem_scanLocation_of_mem_exact fs t loc hexists e
      (mem_exactMatches_of_find fs t loc e hfind hfile)
  exact path_mem_searchCatalog fs (searchLocations fs .linux home u) t e loc
    hcat hscan hsmall

/-- C1 witness: in the snapshot `fsW` the term `b.pdf` exactly names the one
file in Downloads, and its path is in the result. -/
theorem c1_witness :
    ["h", "Downloads", "b.pdf"] ∈
      (search_for_file fsW .linux ["h"] "" "b.pdf").map FSEntry.path :=
  c1_exact_match_within_cap fsW ["h"] "" "b.pdf" (["h"] ++ ["Downloads"])
    ⟨["h", "Downloads", "b.pdf"], true, some 5⟩
    (by decide) (by decide) (by decide) (by decide) (by decide)

/-- C2 counterexample: in `fsC2` the first catalog directory alone contributes
at least 20 matches, yet the newest match `entA99`, which lies in the second
catalog directory (Documents), still appears in the result of
`search_for_file` — so remaining directories are not skipped after 20
matches; no global early-exit exists in the code. -/
theorem c2_counterexample :
    20 ≤ (scanLocation fsC2 "a" ["h", "Downloads"]).length ∧
      entA99 ∈ search_for_file fsC2 .linux ["h"] "" "a" := by
  constructor
  · decide
  · decide

/-- C2 (amended): `search_for_file` has no global early-exit: the matches
collected from the directories of the catalog are simply concatenated, so
even when the first directories have already produced 20 or more matches,
the remaining directories are still scanned and contribute exactly the same
matches they would contribute on their own. -/
theorem c2_no_global_early_exit (fs : FS) (locs1 locs2 : List (List String))
    (t : String) (_h20 : 20 ≤ (foundFiles fs locs1 t).length) :
    foundFiles fs (locs1 ++ locs2) t =
      foundFiles fs locs1 t ++ foundFiles fs locs2 t := by
  unfold foundFiles
  exact List.flatMap_append locs1 locs2 (scanLocation fs t)

/-- C2 witness: the early-exit-free decomposition at the concrete snapshot
`fsC2`, whose first directory contributes more than 20 matches. -/
theorem c2_witness :
    foundFiles fsC2 ([["h", "Downloads"]] ++ [["h", "Documents"]]) "a" =
      foundFiles fsC2 [["h", "Downloads"]] "a" ++
        foundFiles fsC2 [["h", "Documents"]] "a" :=
  c2_no_global_early_exit fsC2 [["h", "Downloads"]] [["h", "Documents"]] "a"
    (by decide)

/-- C3 counterexample: the catalog the code builds on a Linux-like host is not
the list the spec describes (Downloads, Documents, Desktop, home, /home,
/usr, /opt, /var, /tmp): the code emits only Downloads, Documents, Desktop
and /tmp, and has no deep mode at all. -/
theorem c3_counterexample :
    searchLocations fsEmpty .linux ["home", "user"] "" ≠
      specLinuxCatalog ["home", "user"] false := by
  decide

/-- C3 (amended): on a Linux-like host the catalog of candidate directories is
exactly the user's Downloads, Documents and Desktop folders followed by /tmp,
in that order; the home directory itself and the system directories /home,
/usr, /opt and /var are never part of the catalog, and the function has no
deep mode. -/
theorem c3_linux_catalog (fs : FS) (home : List String) (u : String) :
    searchLocations fs .linux home u =
        [home ++ ["Downloads"], home ++ ["Documents"], home ++ ["Desktop"],
          ["tmp"]] ∧
      ["home"] ∉ searchLocations fs .linux home u ∧
      ["usr"] ∉ searchLocations fs .linux home u ∧
      ["opt"] ∉ searchLocations fs .linux home u ∧
      ["var"] ∉ searchLocations fs .linux home u := by
  refine ⟨rfl, ?_, ?_, ?_, ?_⟩ <;>
  · intro hmem
    simp only [searchLocations, List.mem_cons, List.mem_singleton] at hmem
    rcases hmem with h | h | h | h
    · exact singleton_ne_append_of_ne home (by decide) h
    · exact singleton_ne_append_of_ne home (by decide) h
    · exact singleton_ne_append_of_ne home (by decide) h
    · exact absurd h (by decide)

/-- C4 counterexample: in `fsC4` the result holds two entries with valid
modification times 1 and 2 in increasing order — a third entry's failing
stat made the `except` clause skip the entire sort, so even valid entries
are not ordered newest-first. -/
theorem c4_counterexample :
    ¬ (search_for_file fsC4 .linux ["h"] "" "r").Pairwise
        (fun a b => a.mtime.isSome = true → b.mtime.isSome = true →
          mtimeKey b ≤ mtimeKey a) := by
  decide

/-- C4 (amended): when every deduplicated match has a valid (stat-obtainable)
modification time, the result list is ordered by non-increasing modification
time; when any stat fails, the whole sort is skipped and no ordering is
guaranteed for any entry. -/
theorem c4_sorted_when_all_mtimes_valid (fs : FS) (os : OSKind)
    (home : List String) (u t : String)
    (h : (dictDedup (foundFiles fs (searchLocations fs os home u) t)).all
      (fun e => e.mtime.isSome) = true) :
    (search_for_file fs os home u t).Pairwise mtimeGE := by
  unfold search_for_file searchCatalog rankAndTruncate
  rw [if_pos h]
  exact List.Pairwise.sublist (List.take_sublist _ _)
    (List.sorted_insertionSort mtimeGE _)

/-- C4 witness: the ordering guarantee at the concrete snapshot `fsW`, where
every match has a valid modification time. -/
theorem c4_witness :
    (search_for_file fsW .linux ["h"] "" "b.pdf").Pairwise mtimeGE :=
  c4_sorted_when_all_mtimes_valid fsW .linux ["h"] "" "b.pdf" (by decide)

/-- C5: no absolute path occurs twice in a result list of `search_for_file`,
no matter how many directory/term combinations located the same file: the
dict-based deduplication keys by the path, sorting only permutes, and
truncation only drops entries. -/
theorem c5_no_duplicate_paths (fs : FS) (os : OSKind) (home : List String)
    (u t : String) :
    ((search_for_file fs os home u t).map FSEntry.path).Nodup := by
  unfold search_for_file searchCatalog rankAndTruncate
  rw [List.map_take]
  refine List.Nodup.sublist (List.take_sublist _ _) ?_
  exact ((rank_perm (dictDedup (foundFiles fs (searchLocations fs os home u) t))).map
    FSEntry.path).nodup_iff.mpr (dictDedup_paths_nodup _)

/-- C6: every result list of `search_for_file` has at most 15 entries (the
code's cap, `unique_files[:15]` at line 329). -/
theorem c6_result_length_le_cap (fs : FS) (os : OSKind) (home : List String)
    (u t : String) :
    (search_for_file fs os home u t).length ≤ 15 := by
  unfold search_for_file searchCatalog rankAndTruncate
  exact List.length_take_le _ _

/-- C7: a directory-access error aborts only that directory's contribution:
a denied directory (whose exact-match lookup also finds nothing) changes
nothing about the search over the remaining catalog, so a file matching the
term in a later accessible directory still appears exactly as it would
without the inaccessible directory. -/
theorem c7_denied_directory_skipped (fs : FS) (A : List String)
    (rest : List (List String)) (t : String)
    (hdenied : fs.isDenied A = true)
    (hnone : fs.findEntry (A ++ [t]) = none) :
    searchCatalog fs (A :: rest) t = searchCatalog fs rest t := by
  unfold searchCatalog foundFiles
  rw [List.flatMap_cons, scanLocation_eq_nil_of_denied fs t A hdenied hnone,
    List.nil_append]

/-- C7 witness: with directory `a` denied and `b` accessible, the search over
`[a, b]` equals the search over `[b]` alone, and b's `x.pdf` is found. -/
theorem c7_witness :
    searchCatalog fsC7 [["a"], ["b"]] "x.pdf" = searchCatalog fsC7 [["b"]] "x.pdf" ∧
      (⟨["b", "x.pdf"], true, some 3⟩ : FSEntry) ∈
        searchCatalog fsC7 [["a"], ["b"]] "x.pdf" :=
  ⟨c7_denied_directory_skipped fsC7 ["a"] [["b"]] "x.pdf" (by decide) (by decide),
    by decide⟩

/-- C8 counterexample: after a failing stat the other entries' positions are
affected too, not only the failing file's: in `fsC8` the valid entries with
mtimes 10 and 20 stay in their (increasing) insertion order, because the
whole sort was skipped.  The failing file is retained. -/
theorem c8_counterexample :
    (searchCatalog fsC8 [["g", "Downloads"]] "q").map FSEntry.mtime =
        [some 10, some 20, none] ∧
      ¬ (searchCatalog fsC8 [["g", "Downloads"]] "q").Pairwise
        (fun a b => a.mtime.isSome = true → b.mtime.isSome = true →
          mtimeKey b ≤ mtimeKey a) := by
  constructor
  · decide
  · decide

/-- C8 (amended): if obtaining the modification time of any candidate fails
during ranking, the ranking step raises no error and drops no file: the
deduplicated match list is returned unchanged (then truncated to the cap of
15, exactly as a sorted list would be); the positions of all entries — not
only the failing one — are left as insertion order. -/
theorem c8_stat_failure_keeps_entries (fs : FS) (locs : List (List String))
    (t : String)
    (h : (dictDedup (foundFiles fs locs t)).all (fun e => e.mtime.isSome) = false) :
    searchCatalog fs locs t = (dictDedup (foundFiles fs locs t)).take 15 := by
  unfold searchCatalog rankAndTruncate
  simp [h]

/-- C8 witness: the unchanged-list behaviour at the concrete snapshot `fsC8`,
where one stat fails. -/
theorem c8_witness :
    searchCatalog fsC8 [["g", "Downloads"]] "q" =
      (dictDedup (foundFiles fsC8 [["g", "Downloads"]] "q")).take 15 :=
  c8_stat_failure_keeps_entries fsC8 [["g", "Downloads"]] "q" (by decide)

/-- C9: `search_for_file` is deterministic and idempotent: with the ambient
state (filesystem snapshot, platform, home, username) and the search term
made explicit, two invocations on equal inputs return equal result lists. -/
theorem c9_deterministic (fs1 fs2 : FS) (os1 os2 : OSKind)
    (home1 home2 : List String) (u1 u2 t1 t2 : String)
    (hfs : fs1 = fs2) (hos : os1 = os2) (hh : home1 = home2)
    (hu : u1 = u2) (ht : t1 = t2) :
    search_for_file fs1 os1 home1 u1 t1 = search_for_file fs2 os2 home2 u2 t2 := by
  subst hfs hos hh hu ht
  rfl

/-- C9 witness: two runs on the concrete snapshot `fsW` agree. -/
theorem c9_witness :
    search_for_file fsW .linux ["h"] "" "b.pdf" =
      search_for_file fsW .linux ["h"] "" "b.pdf" :=
  c9_deterministic fsW fsW .linux .linux ["h"] ["h"] "" "" "b.pdf" "b.pdf"
    rfl rfl rfl rfl rfl

/-- C10: every entry of a result list of `search_for_file` was accepted by a
branch that checked `is_file`, so the result never contains a directory. -/
theorem c10_results_are_regular_files (fs : FS) (os : OSKind)
    (home : List String) (u t : String) :
    (search_for_file fs os home u t).all (fun e => e.isFile) = true := by
  refine List.all_eq_true.mpr ?_
  intro e he
  have he2 : e ∈ searchCatalog fs (searchLocations fs os home u) t := he
  exact mem_foundFiles_isFile fs _ t e
    (mem_searchCatalog_found fs _ t e he2)
